import Mathlib

/-!
Verification development for the oracle-suite relayer and teleport event
scanner.

The relay decision engine is embedded from src/pkg/relayer/relayer.go
(package relayer: Relayer, Pair, Collect, Start, relay, calcSpread).  The
price buffer (Prices) and the teleport event provider are not part of the
given sources, only their caller and their tests are; those parts are
modelled from the specification and from the observable behaviour pinned
down by the tests, and every such definition is marked in its doc comment.

Numeric conventions of the embedding:
the Go big.Int values are embedded as Int; unix timestamps and durations
as Int; the Go float64 spread values are embedded as exact rationals.  All
comparisons settled below are decided at margins far larger than any
float64 rounding error, so the exact-rational abstraction is faithful for
every statement in this file.
-/

namespace OracleSuite

/-- Embeds oracle.Price (the feeder reading): asset pair name, big.Int
value and observation time. -/
structure Price where
  assetPair : String
  val : Int
  age : Int
deriving Repr, DecidableEq

/-- The per-pair price buffer.  The Prices type of the source repository
is not among the given files (only its caller relayer.go is), so the
buffer is modelled from the spec as the list of collected readings. -/
abbrev Prices := List Price

/-- Modelled from the spec: Prices.Add appends the reading, after
rejecting a zero value as an invalid reading. -/
def Prices.add (p : Price) (ps : Prices) : Except String Prices :=
  if p.val = 0 then .error "invalid reading" else .ok (ps ++ [p])

/-- Modelled from the spec: Prices.ClearExpired removes every reading
whose age exceeds the pair price expiration, keeping a reading exactly
when now is at most its observation time plus the expiration. -/
def Prices.clearExpired (now expiration : Int) (ps : Prices) : Prices :=
  ps.filter (fun p => decide (now ≤ p.age + expiration))

/-- Insertion step of a stable insertion sort by a boolean order. -/
def insertLeB {α : Type} (le : α → α → Bool) (a : α) : List α → List α
  | [] => [a]
  | b :: bs => if le a b then a :: b :: bs else b :: insertLeB le a bs

/-- Stable insertion sort by a boolean order. -/
def sortLeB {α : Type} (le : α → α → Bool) (l : List α) : List α :=
  l.foldr (insertLeB le) []

/-- Modelled from the spec: Prices.Median sorts the buffered values and
returns the middle value for an odd count, and the arithmetic mean of the
two middle values for an even count.  The values are big.Int, so the even
case divides by two in the integers. -/
def Prices.median (ps : Prices) : Int :=
  let vals := sortLeB (fun x y => decide (x ≤ y)) (ps.map Price.val)
  let n := vals.length
  if n % 2 = 1 then vals.getD (n / 2) 0
  else (vals.getD (n / 2 - 1) 0 + vals.getD (n / 2) 0) / 2

/-- Modelled from the spec: Prices.Truncate keeps min n (Len) readings,
chosen as the values closest to the buffer median. -/
def Prices.truncate (n : Nat) (ps : Prices) : Prices :=
  if ps.length ≤ n then ps
  else
    let m := Prices.median ps
    (sortLeB (fun p q => decide ((p.val - m).natAbs ≤ (q.val - m).natAbs)) ps).take n

/-- Modelled from the spec: Prices.Get returns the retained values for
submission. -/
def Prices.get (ps : Prices) : List Int := ps.map Price.val

/-- The four network calls the relay transition can make against the
median oracle contract, in the order relayer.go issues them. -/
inductive NetCall
  | age
  | bar
  | price
  | poke
deriving Repr, DecidableEq

/-- Errors returned by the relay transition of relayer.go: the three
business-rule abort messages and propagated RPC errors. -/
inductive RelayErr
  | rpc (msg : String)
  | notYetExpired
  | insufficientQuorum
  | spreadTooLow
deriving Repr, DecidableEq

/-- Embeds the oracle.Median capability consumed by relayer.go, as the
deterministic results of its four calls during one relay transition:
Age, Bar (required quorum), Price (current on-chain price) and Poke
(transaction submission). -/
structure Median where
  ageResult : Except String Int
  barResult : Except String Nat
  priceResult : Except String Int
  pokeResult : Except String Unit

/-- Embeds the Pair struct of relayer.go.  OracleSpread is a float64 in
the source, embedded as an exact rational. -/
structure Pair where
  assetPair : String
  oracleSpread : ℚ
  oracleExpiration : Int
  priceExpiration : Int
  median : Median

/-- Embeds calcSpread of relayer.go: the percentage difference
(newPrice - oldPrice) / oldPrice * 100.  The source computes this with
big.Float and converts to float64 for the comparison; the embedding uses
exact rationals (see the header note). -/
def calcSpread (oldPrice newPrice : Int) : ℚ :=
  ((newPrice : ℚ) - (oldPrice : ℚ)) / (oldPrice : ℚ) * 100

/-- Observable outcome of one relay transition: the returned error or
success, the final buffer contents, the value set passed to Poke when
Poke was reached, and the network calls issued, in order. -/
structure RelayResult where
  res : Except RelayErr Unit
  prices : Prices
  submitted : Option (List Int)
  calls : List NetCall

/-- Embeds relay of relayer.go.  The transition clears expired readings,
queries Age and aborts when the oracle price is not yet expired, queries
Bar and aborts below quorum, truncates the buffer to the quorum size,
queries Price and aborts when the signed spread is below OracleSpread,
and otherwise Pokes the retained values and clears the buffer whatever
the Poke outcome was. -/
def relay (now : Int) (pair : Pair) (ps : Prices) : RelayResult :=
  let ps1 := Prices.clearExpired now pair.priceExpiration ps
  match pair.median.ageResult with
  | .error e => ⟨.error (.rpc e), ps1, none, [.age]⟩
  | .ok oracleTime =>
    if now < oracleTime + pair.oracleExpiration then
      ⟨.error .notYetExpired, ps1, none, [.age]⟩
    else
      match pair.median.barResult with
      | .error e => ⟨.error (.rpc e), ps1, none, [.age, .bar]⟩
      | .ok quorum =>
        if ps1.length < quorum then
          ⟨.error .insufficientQuorum, ps1, none, [.age, .bar]⟩
        else
          let ps2 := Prices.truncate quorum ps1
          match pair.median.priceResult with
          | .error e => ⟨.error (.rpc e), ps2, none, [.age, .bar, .price]⟩
          | .ok oldPrice =>
            if calcSpread oldPrice (Prices.median ps2) < pair.oracleSpread then
              ⟨.error .spreadTooLow, ps2, none, [.age, .bar, .price]⟩
            else
              ⟨(pair.median.pokeResult.mapError RelayErr.rpc).map (fun _ => ()),
                [], some (Prices.get ps2), [.age, .bar, .price, .poke]⟩

/-- Embeds the Relayer struct of relayer.go: the registered pairs with
their buffers.  The Go map keyed by asset pair is embedded as an
association list. -/
structure Relayer where
  interval : Int
  pairs : List (String × Pair × Prices)

/-- Outcome of one Collect call.  The panic constructor records a Go
runtime panic: relayer.go line 78 indexes the pair map without an
existence check, so a missing key yields the zero Pair whose prices field
is a nil pointer, and Prices.Add (which appends through that pointer, per
the spec) dereferences nil. -/
inductive CollectResult
  | ok (r : Relayer)
  | err (msg : String)
  | panic

/-- Replaces the buffer of the named pair in the registry. -/
def setPrices (key : String) (ps : Prices) :
    List (String × Pair × Prices) → List (String × Pair × Prices)
  | [] => []
  | e :: es =>
    if e.1 = key then (e.1, e.2.1, ps) :: es else e :: setPrices key ps es

/-- Embeds Collect of relayer.go: rejects a zero value, then indexes the
pair map by the asset pair of the reading with no existence check and
calls Add on the prices of the entry.  For an absent key the Go map
yields the zero Pair and the nil prices pointer makes Add panic. -/
def collect (r : Relayer) (price : Price) : CollectResult :=
  if price.val = 0 then .err "invalid price"
  else
    match r.pairs.lookup price.assetPair with
    | none => .panic
    | some pe =>
      match Prices.add price pe.2 with
      | .error e => .err e
      | .ok ps2 => .ok { r with pairs := setPrices price.assetPair ps2 r.pairs }

/-- Events of one tick of the Start loop of relayer.go, as observable
synchronization actions: acquiring and releasing the Relayer mutex r.mu
(the same mutex Collect and AddPair take), and issuing a network call. -/
inductive TickEv
  | lockAcq
  | lockRel
  | netc (c : NetCall)
deriving Repr, DecidableEq

/-- Network-call events contributed by one registry entry during a tick:
the Start loop skips a pair whose buffer is empty and otherwise runs the
relay transition on it. -/
def relayNetEvents (now : Int) (e : String × Pair × Prices) : List TickEv :=
  if e.2.2.length = 0 then [] else (relay now e.2.1 e.2.2).calls.map TickEv.netc

/-- Embeds one iteration of the ticker case in Start of relayer.go:
r.mu.Lock(), then for every registered pair with a nonempty buffer the
relay transition with all its network calls, then r.mu.Unlock(). -/
def tickTrace (now : Int) (r : Relayer) : List TickEv :=
  TickEv.lockAcq :: ((r.pairs.map (relayNetEvents now)).flatten ++ [TickEv.lockRel])

/-- Number of unreleased lock acquisitions after a trace prefix. -/
def lockDepth (tr : List TickEv) : Int :=
  tr.foldl (fun d e => match e with
    | TickEv.lockAcq => d + 1
    | TickEv.lockRel => d - 1
    | TickEv.netc _ => d) 0

/-- The Relayer mutex is held at position i of a trace when the prefix
before i acquired it more often than it released it. -/
def lockHeldAt (tr : List TickEv) (i : Nat) : Prop := 0 < lockDepth (tr.take i)

/-! Block-range cursor of the teleport event scanner.  The scanner
implementation is not among the given files; only its tests are.  The
cursor is modelled from the spec together with the ranges the fetch
routine test requires: each chunk starts right after the last processed
block and ends at the nearer of lastProcessed + limit and the safe
height head - confirmations. -/

/-- Modelled from the spec: the chunks the cursor emits between an
exclusive lower bound and an inclusive safe upper bound, fuelled for
structural recursion (each step advances by at least one block, so
safe - lastProcessed steps always suffice). -/
def chunkRangesF : Nat → Nat → Nat → Nat → List (Nat × Nat)
  | 0, _, _, _ => []
  | f + 1, lp, safe, limit =>
    if lp < safe ∧ 0 < limit then
      (lp + 1, min (lp + limit) safe) :: chunkRangesF f (min (lp + limit) safe) safe limit
    else []

/-- Modelled from the spec: all chunks of the block-range cursor from
lastProcessed (exclusive) up to safe (inclusive), each at most limit
blocks wide. -/
def chunkRanges (lp safe limit : Nat) : List (Nat × Nat) :=
  chunkRangesF (safe - lp) lp safe limit

/-- Cursor position after successfully processing a list of ranges: the
cursor advances to the upper end of each processed range in turn. -/
def advanceAll (lp : Nat) (rs : List (Nat × Nat)) : Nat :=
  rs.foldl (fun p r => (fun _ => r.2) p) lp

/-- The characterizing predicate of a correct chunking: the ranges are
contiguous, ascending, each at most limit wide, and their endpoints chain
from the exclusive lower bound to the inclusive upper bound. -/
inductive Covers (limit : Nat) : Nat → Nat → List (Nat × Nat) → Prop
  | nil (lp : Nat) : Covers limit lp lp []
  | cons (lp hi safe : Nat) (rest : List (Nat × Nat)) :
      lp < hi → hi ≤ safe → hi - lp ≤ limit →
      Covers limit hi safe rest →
      Covers limit lp safe ((lp + 1, hi) :: rest)

/-! Backfill (prefetch) routine of the teleport event scanner, modelled
from its test: starting from the safe height of the live routine it
samples the timestamp of the upper block of each limit-sized chunk,
fetches that chunk, and walks backward by limit blocks; after the first
chunk whose sampled timestamp is at or before now minus the prefetch
period it stops and disables itself. -/

/-- Modelled from the test of the prefetch routine: the block ranges the
backfill fetches, newest first, walking backward in strides of limit from
the live safe height until the sampled timestamp reaches the target. -/
def prefetchRanges (fuel hi limit : Nat) (ts : Nat → Int) (target : Int) :
    List (Nat × Nat) :=
  match fuel with
  | 0 => []
  | f + 1 =>
    if ts hi ≤ target then [(hi - limit + 1, hi)]
    else (hi - limit + 1, hi) :: prefetchRanges f (hi - limit) limit ts target

/-- Modelled from the test of the prefetch routine: whether the backfill
reached its boundary and disabled itself. -/
def prefetchDisabled (fuel hi limit : Nat) (ts : Nat → Int) (target : Int) : Bool :=
  match fuel with
  | 0 => false
  | f + 1 =>
    if ts hi ≤ target then true
    else prefetchDisabled f (hi - limit) limit ts target

/-- Boolean check that consecutive ranges are strictly ascending, the
order the spec asserts for the backfill scan. -/
def rangesAscending : List (Nat × Nat) → Bool
  | [] => true
  | [_] => true
  | a :: b :: rs => decide (a.2 < b.1) && rangesAscending (b :: rs)

/-- Block timestamps of the prefetch routine test: block 99 at time 1000,
block 84 eighty seconds earlier, block 69 one hundred sixty seconds
earlier, matching the BlockByNumber stubs of the test. -/
def testTs (n : Nat) : Int :=
  if 99 ≤ n then 1000 else if 84 ≤ n then 920 else 840

/-! Event emission of the teleport event scanner, modelled from the fetch
routine test: every log of every FilterLogs result is decoded into an
event carrying the identifier payload of its data field, and sent on the
output channel. -/

/-- A chain log as the scanner tests construct them: transaction hash,
log index, transaction index and the raw data payload. -/
structure Log where
  txHash : String
  logIndex : Nat
  txIndex : Nat
  data : String
deriving Repr, DecidableEq

/-- A decoded teleport event: the dedup key the spec names (transaction
hash and log index) and the identifier payload taken from the log data. -/
structure TeleportEvent where
  dedupKey : String × Nat
  guid : String
deriving Repr, DecidableEq

/-- Modelled from the test: decoding a log keeps its transaction hash,
log index and identifier payload. -/
def decodeLog (l : Log) : TeleportEvent := ⟨(l.txHash, l.logIndex), l.data⟩

/-- Modelled from the fetch routine test: the events emitted over a
scanner run are the decoded logs of every FilterLogs batch, every
occurrence included (the test expects six events from three calls each
returning the same two logs). -/
def emittedEvents (batches : List (List Log)) : List TeleportEvent :=
  (batches.map (fun b => b.map decodeLog)).flatten

/-- The transaction hash both logs of the scanner tests share. -/
def testTxHash : String :=
  "0x66e8ab5a41d4b109c7f6ea5303e3c292771e57fb0b93a8474ca6f72e53eac0e8"

/-- First log fixture of the fetch routine test. -/
def testLog1 : Log := ⟨testTxHash, 0, 1, "teleportTestGUID"⟩

/-- Second log fixture of the fetch routine test: same transaction hash,
same (unset) log index and same payload, different transaction index. -/
def testLog2 : Log := ⟨testTxHash, 0, 2, "teleportTestGUID"⟩

/-- The three FilterLogs results of the fetch routine test, each
returning the same two logs. -/
def testBatches : List (List Log) :=
  [[testLog1, testLog2], [testLog1, testLog2], [testLog1, testLog2]]

/-- Absolute value of a rational, written executably. -/
def ratAbs (q : ℚ) : ℚ := if q < 0 then -q else q

/-! Helper lemmas shared by the claim theorems. -/

theorem mem_insertLeB {α : Type} (le : α → α → Bool) (a x : α) (l : List α) :
    x ∈ insertLeB le a l ↔ x = a ∨ x ∈ l := by
  induction l with
  | nil => simp [insertLeB]
  | cons b bs ih =>
    by_cases h : le a b
    · simp [insertLeB, h]
    · simp only [insertLeB, if_neg h, List.mem_cons, ih]
      tauto

theorem mem_sortLeB {α : Type} (le : α → α → Bool) (x : α) (l : List α) :
    x ∈ sortLeB le l ↔ x ∈ l := by
  induction l with
  | nil => simp [sortLeB]
  | cons b bs ih =>
    show x ∈ insertLeB le b (sortLeB le bs) ↔ _
    rw [mem_insertLeB]
    simp [ih]

theorem mem_of_mem_truncate {n : Nat} {ps : Prices} {p : Price}
    (h : p ∈ Prices.truncate n ps) : p ∈ ps := by
  unfold Prices.truncate at h
  split at h
  · exact h
  · exact (mem_sortLeB _ p ps).mp (List.mem_of_mem_take h)

theorem fresh_of_mem_clearExpired {now expiration : Int} {ps : Prices} {p : Price}
    (h : p ∈ Prices.clearExpired now expiration ps) : now ≤ p.age + expiration := by
  unfold Prices.clearExpired at h
  simpa using (List.mem_filter.mp h).2

theorem mem_clearExpired {now expiration : Int} {ps : Prices} {p : Price}
    (hp : p ∈ ps) (hfresh : now ≤ p.age + expiration) :
    p ∈ Prices.clearExpired now expiration ps := by
  unfold Prices.clearExpired
  exact List.mem_filter.mpr ⟨hp, by simpa using hfresh⟩

theorem relay_case_notYetExpired (now : Int) (pair : Pair) (ps : Prices) (t : Int)
    (hAge : pair.median.ageResult = Except.ok t)
    (hFut : now < t + pair.oracleExpiration) :
    relay now pair ps =
      ⟨Except.error RelayErr.notYetExpired,
        Prices.clearExpired now pair.priceExpiration ps, none, [NetCall.age]⟩ := by
  unfold relay
  rw [hAge]
  simp only [if_pos hFut]

theorem relay_case_insufficientQuorum (now : Int) (pair : Pair) (ps : Prices)
    (t : Int) (q : Nat)
    (hAge : pair.median.ageResult = Except.ok t)
    (hExp : t + pair.oracleExpiration ≤ now)
    (hBar : pair.median.barResult = Except.ok q)
    (hLen : (Prices.clearExpired now pair.priceExpiration ps).length < q) :
    relay now pair ps =
      ⟨Except.error RelayErr.insufficientQuorum,
        Prices.clearExpired now pair.priceExpiration ps, none,
        [NetCall.age, NetCall.bar]⟩ := by
  unfold relay
  rw [hAge, hBar]
  simp only [if_neg (by omega : ¬ now < t + pair.oracleExpiration), if_pos hLen]

theorem relay_case_spreadTooLow (now : Int) (pair : Pair) (ps : Prices)
    (t : Int) (q : Nat) (oldPrice : Int)
    (hAge : pair.median.ageResult = Except.ok t)
    (hExp : t + pair.oracleExpiration ≤ now)
    (hBar : pair.median.barResult = Except.ok q)
    (hLen : q ≤ (Prices.clearExpired now pair.priceExpiration ps).length)
    (hPrice : pair.median.priceResult = Except.ok oldPrice)
    (hLow : calcSpread oldPrice
        (Prices.median (Prices.truncate q (Prices.clearExpired now pair.priceExpiration ps)))
        < pair.oracleSpread) :
    relay now pair ps =
      ⟨Except.error RelayErr.spreadTooLow,
        Prices.truncate q (Prices.clearExpired now pair.priceExpiration ps), none,
        [NetCall.age, NetCall.bar, NetCall.price]⟩ := by
  unfold relay
  rw [hAge, hBar, hPrice]
  simp only [if_neg (by omega : ¬ now < t + pair.oracleExpiration),
    if_neg (by omega : ¬ (Prices.clearExpired now pair.priceExpiration ps).length < q),
    if_pos hLow]

theorem relay_case_submit (now : Int) (pair : Pair) (ps : Prices)
    (t : Int) (q : Nat) (oldPrice : Int)
    (hAge : pair.median.ageResult = Except.ok t)
    (hExp : t + pair.oracleExpiration ≤ now)
    (hBar : pair.median.barResult = Except.ok q)
    (hLen : q ≤ (Prices.clearExpired now pair.priceExpiration ps).length)
    (hPrice : pair.median.priceResult = Except.ok oldPrice)
    (hHigh : pair.oracleSpread ≤ calcSpread oldPrice
        (Prices.median (Prices.truncate q (Prices.clearExpired now pair.priceExpiration ps)))) :
    relay now pair ps =
      ⟨(pair.median.pokeResult.mapError RelayErr.rpc).map (fun _ => ()), [],
        some (Prices.get (Prices.truncate q (Prices.clearExpired now pair.priceExpiration ps))),
        [NetCall.age, NetCall.bar, NetCall.price, NetCall.poke]⟩ := by
  unfold relay
  rw [hAge, hBar, hPrice]
  simp only [if_neg (by omega : ¬ now < t + pair.oracleExpiration),
    if_neg (by omega : ¬ (Prices.clearExpired now pair.priceExpiration ps).length < q),
    if_neg (not_lt.mpr hHigh)]

theorem relay_prices_subset (now : Int) (pair : Pair) (ps : Prices) :
    ∀ p ∈ (relay now pair ps).prices,
      p ∈ Prices.clearExpired now pair.priceExpiration ps := by
  intro p hp
  unfold relay at hp
  cases hA : pair.median.ageResult with
  | error e => rw [hA] at hp; exact hp
  | ok t =>
    rw [hA] at hp
    simp only at hp
    by_cases hF : now < t + pair.oracleExpiration
    · rw [if_pos hF] at hp; exact hp
    · rw [if_neg hF] at hp
      cases hB : pair.median.barResult with
      | error e => rw [hB] at hp; exact hp
      | ok q =>
        rw [hB] at hp
        simp only at hp
        by_cases hL : (Prices.clearExpired now pair.priceExpiration ps).length < q
        · rw [if_pos hL] at hp; exact hp
        · rw [if_neg hL] at hp
          cases hP : pair.median.priceResult with
          | error e => rw [hP] at hp; exact mem_of_mem_truncate hp
          | ok oldPrice =>
            rw [hP] at hp
            simp only at hp
            by_cases hS : calcSpread oldPrice
                (Prices.median (Prices.truncate q
                  (Prices.clearExpired now pair.priceExpiration ps)))
                < pair.oracleSpread
            · rw [if_pos hS] at hp; exact mem_of_mem_truncate hp
            · rw [if_neg hS] at hp; simp at hp

/-! Concrete fixtures instantiating the claim theorems. -/

/-- A registry holding only the pair BTCUSD, so that ETHUSD is an
unregistered identifier. -/
def relayerC1 : Relayer :=
  ⟨1, [("BTCUSD", ⟨"BTCUSD", 2, 300, 300,
      ⟨Except.ok 0, Except.ok 3, Except.ok 100, Except.ok ()⟩⟩, [])]⟩

/-- Pair fixture for the spread-sign divergence: on-chain price 100,
required spread two percent, quorum one, oracle price long expired. -/
def pairC2 : Pair :=
  ⟨"ETHUSD", 2, 300, 300, ⟨Except.ok 0, Except.ok 1, Except.ok 100, Except.ok ()⟩⟩

/-- A single fresh reading of 40, far below the on-chain price 100. -/
def psC2 : Prices := [⟨"ETHUSD", 40, 1000⟩]

/-- Pair fixture for the submission claim; the Poke transaction fails, to
exercise the clearing of the buffer on a failed submission. -/
def pairW3 : Pair :=
  ⟨"ETHUSD", 2, 300, 300,
    ⟨Except.ok 0, Except.ok 1, Except.ok 100, Except.error "tx failed"⟩⟩

/-- A single fresh reading of 105 against the on-chain price 100. -/
def psW3 : Prices := [⟨"ETHUSD", 105, 995⟩]

/-- Pair fixture with required quorum three. -/
def pairW4 : Pair :=
  ⟨"ETHUSD", 2, 300, 300, ⟨Except.ok 0, Except.ok 3, Except.ok 100, Except.ok ()⟩⟩

/-- Two fresh readings, below the quorum of three. -/
def psW4 : Prices := [⟨"ETHUSD", 101, 995⟩, ⟨"ETHUSD", 102, 996⟩]

/-- Pair fixture whose oracle price is not yet expired at time 1000: the
on-chain age 999 plus the expiration 300 is still in the future. -/
def pairW5 : Pair :=
  ⟨"ETHUSD", 2, 300, 300, ⟨Except.ok 999, Except.ok 3, Except.ok 100, Except.ok ()⟩⟩

/-- A single fresh reading at the not-yet-expired fixture. -/
def psW5 : Prices := [⟨"ETHUSD", 105, 995⟩]

/-- Pair fixture for the frame-effect claim: price expiration 100 and an
oracle price that is not yet expired, so the transition aborts early. -/
def pairC10 : Pair :=
  ⟨"BTCUSD", 2, 300, 100, ⟨Except.ok 999, Except.ok 3, Except.ok 100, Except.ok ()⟩⟩

/-- One fresh reading and one long-expired reading. -/
def psC10 : Prices := [⟨"BTCUSD", 5, 990⟩, ⟨"BTCUSD", 7, 10⟩]

/-- C1: Collect on an unregistered asset-pair identifier does not fail
with an UnknownPair error: relayer.go indexes the pair map with no
existence check, the missing key yields the zero Pair whose prices
pointer is nil, and the Add call panics.  No execution of Collect returns
an unknown-pair error. -/
theorem collect_unknown_pair_is_panic :
    collect relayerC1 ⟨"ETHUSD", 1, 0⟩ = CollectResult.panic
    ∧ ∀ (r : Relayer) (p : Price), collect r p ≠ CollectResult.err "unknown pair" := by
  constructor
  · rfl
  · intro r p
    unfold collect
    by_cases hv : p.val = 0
    · rw [if_pos hv]
      intro h
      injection h with h2
      exact absurd h2 (by decide)
    · rw [if_neg hv]
      cases hlk : r.pairs.lookup p.assetPair with
      | none => intro h; cases h
      | some pe =>
        have hadd : Prices.add p pe.2 = Except.ok (pe.2 ++ [p]) := by
          unfold Prices.add
          rw [if_neg hv]
        dsimp only
        rw [hadd]
        intro h
        cases h

/-- C2: at on-chain price 100 and buffered median 40 the percentage
spread is minus sixty, whose absolute value far exceeds the required
spread of two, yet the transition aborts with SpreadTooLow and never
submits: relayer.go compares the signed spread against OracleSpread with
no absolute value. -/
theorem relay_signed_spread_no_abs :
    (relay 1000 pairC2 psC2).res = Except.error RelayErr.spreadTooLow
    ∧ (relay 1000 pairC2 psC2).submitted = none
    ∧ NetCall.poke ∉ (relay 1000 pairC2 psC2).calls
    ∧ calcSpread 100 40 = -60
    ∧ pairC2.oracleSpread ≤ ratAbs (calcSpread 100 40) := by
  have hsp : calcSpread 100 40 = -60 := by norm_num [calcSpread]
  have h := relay_case_spreadTooLow 1000 pairC2 psC2 0 1 100 rfl (by decide) rfl
    (by decide) rfl
    (by show calcSpread 100 40 < (2 : ℚ); rw [hsp]; norm_num)
  rw [h]
  refine ⟨rfl, rfl, by decide, hsp, ?_⟩
  show (2 : ℚ) ≤ ratAbs (calcSpread 100 40)
  rw [hsp]
  norm_num [ratAbs]

/-- C3: when every gate passes, the transition submits exactly the value
set of the truncated buffer and afterwards the buffer is empty, with no
hypothesis on the Poke outcome, so the clearing holds for a successful
and for a failed submission alike. -/
theorem relay_submits_truncated_then_clears (now : Int) (pair : Pair) (ps : Prices)
    (t : Int) (q : Nat) (oldPrice : Int)
    (hAge : pair.median.ageResult = Except.ok t)
    (hExp : t + pair.oracleExpiration ≤ now)
    (hBar : pair.median.barResult = Except.ok q)
    (hLen : q ≤ (Prices.clearExpired now pair.priceExpiration ps).length)
    (hPrice : pair.median.priceResult = Except.ok oldPrice)
    (hHigh : pair.oracleSpread ≤ calcSpread oldPrice
        (Prices.median (Prices.truncate q (Prices.clearExpired now pair.priceExpiration ps)))) :
    (relay now pair ps).submitted =
      some (Prices.get (Prices.truncate q (Prices.clearExpired now pair.priceExpiration ps)))
    ∧ (relay now pair ps).prices = []
    ∧ NetCall.poke ∈ (relay now pair ps).calls := by
  rw [relay_case_submit now pair ps t q oldPrice hAge hExp hBar hLen hPrice hHigh]
  exact ⟨rfl, rfl, by simp⟩

/-- Witness for C3 at the concrete fixture: quorum met, median 105
against on-chain 100, Poke failing, buffer cleared all the same. -/
theorem relay_submits_truncated_then_clears_witness :
    (relay 1000 pairW3 psW3).submitted =
      some (Prices.get (Prices.truncate 1 (Prices.clearExpired 1000 pairW3.priceExpiration psW3)))
    ∧ (relay 1000 pairW3 psW3).prices = []
    ∧ NetCall.poke ∈ (relay 1000 pairW3 psW3).calls :=
  relay_submits_truncated_then_clears 1000 pairW3 psW3 0 1 100 rfl (by decide) rfl
    (by decide) rfl
    (by show (2 : ℚ) ≤ calcSpread 100 105; norm_num [calcSpread])

/-- C4: a buffered reading count below the on-chain quorum aborts the
transition with InsufficientQuorum, issues no submission call, and leaves
the buffer untruncated (the expired-reading sweep excepted). -/
theorem relay_insufficient_quorum_aborts (now : Int) (pair : Pair) (ps : Prices)
    (t : Int) (q : Nat)
    (hAge : pair.median.ageResult = Except.ok t)
    (hExp : t + pair.oracleExpiration ≤ now)
    (hBar : pair.median.barResult = Except.ok q)
    (hLen : (Prices.clearExpired now pair.priceExpiration ps).length < q) :
    (relay now pair ps).res = Except.error RelayErr.insufficientQuorum
    ∧ (relay now pair ps).submitted = none
    ∧ NetCall.poke ∉ (relay now pair ps).calls
    ∧ (relay now pair ps).prices = Prices.clearExpired now pair.priceExpiration ps := by
  rw [relay_case_insufficientQuorum now pair ps t q hAge hExp hBar hLen]
  exact ⟨rfl, rfl, by simp, rfl⟩

/-- Witness for C4: quorum three against two buffered readings. -/
theorem relay_insufficient_quorum_aborts_witness :
    (relay 1000 pairW4 psW4).res = Except.error RelayErr.insufficientQuorum
    ∧ (relay 1000 pairW4 psW4).submitted = none
    ∧ NetCall.poke ∉ (relay 1000 pairW4 psW4).calls
    ∧ (relay 1000 pairW4 psW4).prices = Prices.clearExpired 1000 pairW4.priceExpiration psW4 :=
  relay_insufficient_quorum_aborts 1000 pairW4 psW4 0 3 rfl (by decide) rfl (by decide)

/-- C5: when the on-chain age plus the oracle expiration is still in the
future the transition aborts with NotYetExpired, makes no further network
call, and the buffer is not cleared: the readings that survive the
expired-reading sweep all remain buffered. -/
theorem relay_not_yet_expired_aborts (now : Int) (pair : Pair) (ps : Prices) (t : Int)
    (hAge : pair.median.ageResult = Except.ok t)
    (hFut : now < t + pair.oracleExpiration) :
    (relay now pair ps).res = Except.error RelayErr.notYetExpired
    ∧ (relay now pair ps).submitted = none
    ∧ NetCall.poke ∉ (relay now pair ps).calls
    ∧ (relay now pair ps).prices = Prices.clearExpired now pair.priceExpiration ps
    ∧ ∀ p ∈ ps, now ≤ p.age + pair.priceExpiration → p ∈ (relay now pair ps).prices := by
  rw [relay_case_notYetExpired now pair ps t hAge hFut]
  refine ⟨rfl, rfl, by simp, rfl, ?_⟩
  intro p hp hfresh
  exact mem_clearExpired hp hfresh

/-- Witness for C5: on-chain age 999, expiration 300, clock 1000; the
fresh reading stays buffered. -/
theorem relay_not_yet_expired_aborts_witness :
    (relay 1000 pairW5 psW5).res = Except.error RelayErr.notYetExpired
    ∧ (relay 1000 pairW5 psW5).submitted = none
    ∧ NetCall.poke ∉ (relay 1000 pairW5 psW5).calls
    ∧ (relay 1000 pairW5 psW5).prices = Prices.clearExpired 1000 pairW5.priceExpiration psW5
    ∧ ∀ p ∈ psW5, 1000 ≤ p.age + pairW5.priceExpiration → p ∈ (relay 1000 pairW5 psW5).prices :=
  relay_not_yet_expired_aborts 1000 pairW5 psW5 999 rfl (by decide)

/-- C10: every relay transition sweeps expired readings before any gate:
whatever the outcome, every reading still buffered afterwards is fresh,
and concretely an attempt aborting with NotYetExpired has dropped the
expired reading, so the buffer is not unchanged on that abort. -/
theorem relay_sweeps_expired_on_every_attempt :
    (∀ (now : Int) (pair : Pair) (ps : Prices), ∀ p ∈ (relay now pair ps).prices,
        now ≤ p.age + pair.priceExpiration)
    ∧ (relay 1000 pairC10 psC10).res = Except.error RelayErr.notYetExpired
    ∧ (relay 1000 pairC10 psC10).prices = [⟨"BTCUSD", 5, 990⟩]
    ∧ (relay 1000 pairC10 psC10).prices ≠ psC10 := by
  have h := relay_case_notYetExpired 1000 pairC10 psC10 999 rfl (by decide)
  refine ⟨?_, ?_, ?_, ?_⟩
  · intro now pair ps p hp
    exact fresh_of_mem_clearExpired (relay_prices_subset now pair ps p hp)
  · rw [h]
  · rw [h]; decide
  · rw [h]; decide

/-! Cursor, prefetch, dedup and lock-trace lemmas. -/

theorem chunkRangesF_covers (limit : Nat) :
    ∀ (f lp safe : Nat), safe - lp ≤ f → 0 < limit → lp ≤ safe →
      Covers limit lp safe (chunkRangesF f lp safe limit) := by
  intro f
  induction f with
  | zero =>
    intro lp safe hf hl hle
    have heq : safe = lp := by omega
    subst heq
    exact Covers.nil safe
  | succ f ih =>
    intro lp safe hf hl hle
    unfold chunkRangesF
    by_cases h : lp < safe ∧ 0 < limit
    · rw [if_pos h]
      exact Covers.cons lp (min (lp + limit) safe) safe _
        (by omega) (by omega) (by omega)
        (ih (min (lp + limit) safe) safe (by omega) hl (by omega))
    · rw [if_neg h]
      have hlt : ¬ lp < safe := by tauto
      have hs : safe = lp := by omega
      subst hs
      exact Covers.nil safe

theorem covers_mem_iff (limit : Nat) (lp safe : Nat) (rs : List (Nat × Nat))
    (h : Covers limit lp safe rs) :
    ∀ b, (∃ r ∈ rs, r.1 ≤ b ∧ b ≤ r.2) ↔ (lp < b ∧ b ≤ safe) := by
  induction h with
  | nil lp => intro b; simp
  | cons lp hi safe rest h1 h2 h3 hrec ih =>
    intro b
    constructor
    · rintro ⟨r, hr, hb1, hb2⟩
      rcases List.mem_cons.mp hr with hcase | hcase
      · subst hcase
        simp only at hb1 hb2
        omega
      · have := (ih b).mp ⟨r, hcase, hb1, hb2⟩
        omega
    · intro hb
      by_cases hcase : b ≤ hi
      · exact ⟨(lp + 1, hi), List.mem_cons_self _ _, by omega, by omega⟩
      · obtain ⟨r, hr, h4, h5⟩ := (ih b).mpr (by omega)
        exact ⟨r, List.mem_cons_of_mem _ hr, h4, h5⟩

theorem prefetchRanges_head (fuel hi limit : Nat) (ts : Nat → Int) (target : Int)
    (h : 0 < fuel) :
    (prefetchRanges fuel hi limit ts target).head? = some (hi - limit + 1, hi) := by
  cases fuel with
  | zero => omega
  | succ f =>
    unfold prefetchRanges
    by_cases hts : ts hi ≤ target
    · rw [if_pos hts]; rfl
    · rw [if_neg hts]; rfl

theorem prefetchRanges_chain (limit : Nat) (ts : Nat → Int) (target : Int) :
    ∀ (fuel hi : Nat),
      List.Chain' (fun a b : Nat × Nat => b.2 + 1 = a.1)
        (prefetchRanges fuel hi limit ts target) := by
  intro fuel
  induction fuel with
  | zero => intro hi; exact List.chain'_nil
  | succ f ih =>
    intro hi
    unfold prefetchRanges
    by_cases hts : ts hi ≤ target
    · rw [if_pos hts]; exact List.chain'_singleton _
    · rw [if_neg hts]
      rw [List.chain'_cons']
      refine ⟨?_, ih (hi - limit)⟩
      intro y hy
      rcases Nat.eq_zero_or_pos f with hf | hf
      · subst hf
        simp [prefetchRanges] at hy
      · rw [prefetchRanges_head f (hi - limit) limit ts target hf] at hy
        simp only [Option.mem_def, Option.some.injEq] at hy
        subst hy
        rfl

theorem prefetchRanges_sampled_above_target (limit : Nat) (ts : Nat → Int)
    (target : Int) :
    ∀ (fuel hi : Nat),
      ∀ r ∈ (prefetchRanges fuel hi limit ts target).dropLast, target < ts r.2 := by
  intro fuel
  induction fuel with
  | zero => intro hi r hr; simp [prefetchRanges] at hr
  | succ f ih =>
    intro hi r hr
    unfold prefetchRanges at hr
    by_cases hts : ts hi ≤ target
    · rw [if_pos hts] at hr
      simp at hr
    · rw [if_neg hts] at hr
      cases hrest : prefetchRanges f (hi - limit) limit ts target with
      | nil =>
        rw [hrest] at hr
        simp at hr
      | cons y ys =>
        rw [hrest] at hr
        rw [List.dropLast_cons₂] at hr
        rcases List.mem_cons.mp hr with hcase | hcase
        · subst hcase
          exact lt_of_not_le hts
        · have := ih (hi - limit) r
          rw [hrest] at this
          exact this hcase

theorem prefetchDisabled_last_at_target (limit : Nat) (ts : Nat → Int)
    (target : Int) :
    ∀ (fuel hi : Nat), prefetchDisabled fuel hi limit ts target = true →
      ∃ r, (prefetchRanges fuel hi limit ts target).getLast? = some r
        ∧ ts r.2 ≤ target := by
  intro fuel
  induction fuel with
  | zero => intro hi h; simp [prefetchDisabled] at h
  | succ f ih =>
    intro hi h
    unfold prefetchDisabled at h
    unfold prefetchRanges
    by_cases hts : ts hi ≤ target
    · rw [if_pos hts]
      exact ⟨(hi - limit + 1, hi), rfl, hts⟩
    · rw [if_neg hts] at h ⊢
      obtain ⟨r, hr, hrt⟩ := ih (hi - limit) h
      refine ⟨r, ?_, hrt⟩
      cases hrest : prefetchRanges f (hi - limit) limit ts target with
      | nil => rw [hrest] at hr; simp at hr
      | cons y ys =>
        rw [hrest] at hr
        rw [List.getLast?_cons_cons]
        exact hr

theorem prefetchRanges_shape (limit : Nat) (ts : Nat → Int) (target : Int) :
    ∀ (fuel hi : Nat), ∀ r ∈ prefetchRanges fuel hi limit ts target,
      r.1 = r.2 - limit + 1 := by
  intro fuel
  induction fuel with
  | zero => intro hi r hr; simp [prefetchRanges] at hr
  | succ f ih =>
    intro hi r hr
    unfold prefetchRanges at hr
    by_cases hts : ts hi ≤ target
    · rw [if_pos hts] at hr
      simp at hr
      subst hr
      rfl
    · rw [if_neg hts] at hr
      rcases List.mem_cons.mp hr with hcase | hcase
      · subst hcase; rfl
      · exact ih (hi - limit) r hcase

theorem lockDepth_all_netc :
    ∀ (l : List TickEv) (d : Int), (∀ e ∈ l, ∃ c, e = TickEv.netc c) →
      l.foldl (fun d e => match e with
        | TickEv.lockAcq => d + 1
        | TickEv.lockRel => d - 1
        | TickEv.netc _ => d) d = d := by
  intro l
  induction l with
  | nil => intro d _; rfl
  | cons e es ih =>
    intro d hall
    obtain ⟨c, hc⟩ := hall e (List.mem_cons_self _ _)
    subst hc
    exact ih d (fun x hx => hall x (List.mem_cons_of_mem _ hx))

theorem tickTrace_mid_all_netc (now : Int) (r : Relayer) :
    ∀ e ∈ (r.pairs.map (relayNetEvents now)).flatten, ∃ c, e = TickEv.netc c := by
  intro e he
  obtain ⟨l, hl, hel⟩ := List.mem_flatten.mp he
  obtain ⟨entry, _, hentry⟩ := List.mem_map.mp hl
  subst hentry
  unfold relayNetEvents at hel
  split at hel
  · simp at hel
  · obtain ⟨c, _, hc⟩ := List.mem_map.mp hel
    exact ⟨c, hc.symm⟩

/-- Pair fixture for the lock trace: its oracle price is not yet expired,
so its relay transition issues exactly one network call. -/
def pairC9 : Pair :=
  ⟨"ETHUSD", 2, 300, 300, ⟨Except.ok 999, Except.ok 3, Except.ok 100, Except.ok ()⟩⟩

/-- An engine holding one pair with a nonempty buffer. -/
def relayerC9 : Relayer := ⟨1, [("ETHUSD", pairC9, [⟨"ETHUSD", 105, 995⟩])]⟩

/-- C6: the block-range cursor splits (lastProcessed, head minus
confirmations] into contiguous ascending chunks of width at most limit: a
block lies in some emitted range exactly when it lies in that interval;
at head 1000, confirmations 2, limit 100, lastProcessed 700 the ranges
are [701,800], [801,900], [901,998] in that order and the cursor ends at
998 after all three succeed. -/
theorem chunkRanges_cover_interval :
    (∀ (head conf limit lp : Nat), 0 < limit → lp < head - conf →
        Covers limit lp (head - conf) (chunkRanges lp (head - conf) limit))
    ∧ (∀ (limit lp safe : Nat) (rs : List (Nat × Nat)), Covers limit lp safe rs →
        ∀ b, (∃ r ∈ rs, r.1 ≤ b ∧ b ≤ r.2) ↔ (lp < b ∧ b ≤ safe))
    ∧ chunkRanges 700 (1000 - 2) 100 = [(701, 800), (801, 900), (901, 998)]
    ∧ advanceAll 700 (chunkRanges 700 (1000 - 2) 100) = 998 := by
  refine ⟨?_, ?_, by decide, by decide⟩
  · intro head conf limit lp hlim hlt
    exact chunkRangesF_covers limit (head - conf - lp) lp (head - conf)
      (le_refl _) hlim (by omega)
  · intro limit lp safe rs h
    exact covers_mem_iff limit lp safe rs h

/-- C7 counterexample: at the parameters of the prefetch routine test the
backfill emits the ranges [85,99], [70,84], [55,69] in that order, which
are not ascending, refuting a forward scan from the boundary block up to
the live start. -/
theorem prefetch_ranges_descend :
    prefetchRanges 10 99 15 testTs 900 = [(85, 99), (70, 84), (55, 69)]
    ∧ rangesAscending (prefetchRanges 10 99 15 testTs 900) = false
    ∧ prefetchDisabled 10 99 15 testTs 900 = true := by
  refine ⟨by decide, by decide, by decide⟩

/-- C7 amended: the backfill routine starts at the live safe height and
walks backward, fetching each limit-sized chunk as it goes: the emitted
ranges are contiguous downward (each next range ends right below the
previous one), the first range ends at the start height, every range but
the last samples a timestamp above the target, and when the routine
disabled itself the last range sampled a timestamp at or before the
target; at the test parameters the walk starts at height 99 and stops
and disables itself at the chunk [55,69] whose sampled timestamp is at
the boundary. -/
theorem prefetch_scans_backward :
    (∀ (limit : Nat) (ts : Nat → Int) (target : Int) (fuel hi : Nat),
        List.Chain' (fun a b : Nat × Nat => b.2 + 1 = a.1)
          (prefetchRanges fuel hi limit ts target))
    ∧ (∀ (limit : Nat) (ts : Nat → Int) (target : Int) (fuel hi : Nat), 0 < fuel →
        (prefetchRanges fuel hi limit ts target).head? = some (hi - limit + 1, hi))
    ∧ (∀ (limit : Nat) (ts : Nat → Int) (target : Int) (fuel hi : Nat),
        ∀ r ∈ (prefetchRanges fuel hi limit ts target).dropLast, target < ts r.2)
    ∧ (∀ (limit : Nat) (ts : Nat → Int) (target : Int) (fuel hi : Nat),
        prefetchDisabled fuel hi limit ts target = true →
          ∃ r, (prefetchRanges fuel hi limit ts target).getLast? = some r
            ∧ ts r.2 ≤ target)
    ∧ (∀ (limit : Nat) (ts : Nat → Int) (target : Int) (fuel hi : Nat),
        ∀ r ∈ prefetchRanges fuel hi limit ts target, r.1 = r.2 - limit + 1)
    ∧ (prefetchRanges 10 99 15 testTs 900).head? = some (85, 99)
    ∧ (prefetchRanges 10 99 15 testTs 900).getLast? = some (55, 69)
    ∧ testTs 69 ≤ 900 := by
  refine ⟨?_, ?_, ?_, ?_, ?_, by decide, by decide, by decide⟩
  · intro limit ts target fuel hi
    exact prefetchRanges_chain limit ts target fuel hi
  · intro limit ts target fuel hi h
    exact prefetchRanges_head fuel hi limit ts target h
  · intro limit ts target fuel hi
    exact prefetchRanges_sampled_above_target limit ts target fuel hi
  · intro limit ts target fuel hi h
    exact prefetchDisabled_last_at_target limit ts target fuel hi h
  · intro limit ts target fuel hi
    exact prefetchRanges_shape limit ts target fuel hi

/-- C8 counterexample: the two logs of the fetch routine test agree on
the dedup key (transaction hash and log index) and on the identifier
payload, yet over the three FilterLogs batches of the test the scanner
emits six events, all equal under the dedup key. -/
theorem duplicate_events_emitted :
    (decodeLog testLog1).dedupKey = (decodeLog testLog2).dedupKey
    ∧ (decodeLog testLog1).guid = (decodeLog testLog2).guid
    ∧ (emittedEvents testBatches).count (decodeLog testLog1) = 6
    ∧ (emittedEvents testBatches).length = 6 := by
  refine ⟨by decide, by decide, by decide, by decide⟩

/-- C8 amended: the scanner emits one event per log occurrence of every
FilterLogs batch, with no deduplication within or across batches: the
emitted stream is exactly the decoding of the concatenated batches, its
length the sum of the batch sizes, and at the test fixture the same two
logs are emitted again for each of the three batches. -/
theorem every_log_occurrence_emitted :
    (∀ batches : List (List Log),
        emittedEvents batches = batches.flatten.map decodeLog)
    ∧ (∀ batches : List (List Log),
        (emittedEvents batches).length = (batches.map List.length).sum)
    ∧ emittedEvents testBatches =
        [decodeLog testLog1, decodeLog testLog2, decodeLog testLog1,
          decodeLog testLog2, decodeLog testLog1, decodeLog testLog2] := by
  refine ⟨?_, ?_, by decide⟩
  · intro batches
    rw [emittedEvents, List.map_flatten]
  · intro batches
    rw [emittedEvents, List.length_flatten, List.map_map]
    congr 1
    apply List.map_congr_left
    intro b _
    exact List.length_map b decodeLog

/-- C9 counterexample: with one registered pair holding a nonempty
buffer, position one of the tick trace is a network call and the engine
mutex is held there: the Start loop of relayer.go locks r.mu before
iterating the pairs and unlocks only after every relay transition of the
tick, network calls included. -/
theorem tick_net_call_under_lock :
    (tickTrace 1000 relayerC9).get? 1 = some (TickEv.netc NetCall.age)
    ∧ lockHeldAt (tickTrace 1000 relayerC9) 1 := by
  constructor
  · rfl
  · show (0 : Int) < lockDepth ((tickTrace 1000 relayerC9).take 1)
    decide

/-- C9 amended: every network call of a tick executes while the engine
mutex is held: whenever position i of the tick trace is a network call,
the lock-acquisition count of the prefix strictly exceeds its release
count, so the exclusive lock serializing Collect and AddPair is held
across every oracle query and submission of the tick. -/
theorem tick_net_calls_hold_lock (now : Int) (r : Relayer) (i : Nat) (c : NetCall)
    (h : (tickTrace now r).get? i = some (TickEv.netc c)) :
    lockHeldAt (tickTrace now r) i := by
  unfold tickTrace at h ⊢
  cases i with
  | zero => simp at h
  | succ j =>
    rw [List.get?_cons_succ] at h
    have hj : j < ((r.pairs.map (relayNetEvents now)).flatten).length := by
      by_contra hge
      push_neg at hge
      rw [List.get?_append_right hge] at h
      rcases Nat.lt_or_ge (j - ((r.pairs.map (relayNetEvents now)).flatten).length) 1 with hc | hc
      · interval_cases h2 : j - ((r.pairs.map (relayNetEvents now)).flatten).length
        · simp at h
      · rw [List.get?_eq_none.mpr (by simpa using hc)] at h
        exact Option.noConfusion h
    show (0 : Int) < lockDepth _
    unfold lockDepth
    rw [List.take_succ_cons, List.take_append_of_le_length (le_of_lt hj)]
    rw [List.foldl_cons]
    have hall : ∀ e ∈ ((r.pairs.map (relayNetEvents now)).flatten).take j,
        ∃ c, e = TickEv.netc c := by
      intro e he
      exact tickTrace_mid_all_netc now r e (List.mem_of_mem_take he)
    rw [lockDepth_all_netc _ _ hall]
    decide

/-- Witness for the amended C9 theorem at the one-pair fixture. -/
theorem tick_net_calls_hold_lock_witness :
    lockHeldAt (tickTrace 1000 relayerC9) 1 :=
  tick_net_calls_hold_lock 1000 relayerC9 1 NetCall.age rfl

end OracleSuite
